import Mathlib

/-!
Shallow embedding of `src/todo.py`, a Streamlit + MongoDB to-do list
application.  The two MongoDB collections (`users`, `tasks`) are modelled as
lists of documents inside an explicit `DB` state; `find_one` is first match,
`insert_one` appends with a fresh store-generated id, `delete_one` and
`update_one` act on the first matching document only.  bcrypt (`hashpw`,
`gensalt`, `checkpw`) is external library code, modelled abstractly as a
salted hash that verifies exactly the hashed password.  Characters are
treated at ASCII granularity (Python's `\d` would additionally accept
non-ASCII Unicode digits).
-/

namespace Todo

/-- ASCII uppercase letter, the regex class `[A-Z]`. -/
def isUpperCh (c : Char) : Bool := 'A' ≤ c && c ≤ 'Z'

/-- ASCII lowercase letter, the regex class `[a-z]`. -/
def isLowerCh (c : Char) : Bool := 'a' ≤ c && c ≤ 'z'

/-- ASCII digit, the regex class `\d` (ASCII fragment). -/
def isDigitCh (c : Char) : Bool := '0' ≤ c && c ≤ '9'

/-- The fixed special-character class `[@$!%*?&]` of the password regex. -/
def isSpecialCh (c : Char) : Bool :=
  c = '@' || c = '$' || c = '!' || c = '%' || c = '*' || c = '?' || c = '&'

/-- The regex body class `[A-Za-z\d@$!%*?&]`. -/
def isAllowedCh (c : Char) : Bool :=
  isUpperCh c || isLowerCh c || isDigitCh c || isSpecialCh c

/-- Semantics of a lookahead `(?=.*[X])` anchored at position 0: the class
`X` must be satisfied by some character occurring before any newline
(Python's `.` does not match `\n`). -/
def seesClass (q : Char → Bool) : List Char → Bool
  | [] => false
  | c :: cs => if c = '\n' then false else (q c || seesClass q cs)

/-- Semantics of `[A-Za-z\d@$!%*?&]{8,}$` starting with `n` characters
already consumed: every character must be in the body class, at least 8 in
total, and Python's `$` also matches just before a single trailing
newline. -/
def matchTailFrom : List Char → Nat → Bool
  | [], n => decide (8 ≤ n)
  | c :: cs, n =>
    if c = '\n' then cs.isEmpty && decide (8 ≤ n)
    else isAllowedCh c && matchTailFrom cs (n + 1)

/-- `is_valid_password` from `src/todo.py`: Python's
`re.match(r"^(?=.*[A-Z])(?=.*[a-z])(?=.*\d)(?=.*[@$!%*?&])[A-Za-z\d@$!%*?&]{8,}$", password) is not None`,
written out as the conjunction of the four lookaheads and the anchored
body match. -/
def is_valid_password (p : List Char) : Bool :=
  seesClass isUpperCh p && seesClass isLowerCh p && seesClass isDigitCh p &&
    seesClass isSpecialCh p && matchTailFrom p 0

/-- The password policy exactly as the spec sentence states it: length at
least 8 and at least one character of each of the four classes (no
restriction on the remaining characters). -/
def passwordClaim (p : List Char) : Prop :=
  8 ≤ p.length ∧ (∃ c ∈ p, isUpperCh c) ∧ (∃ c ∈ p, isLowerCh c) ∧
    (∃ c ∈ p, isDigitCh c) ∧ (∃ c ∈ p, isSpecialCh c)

/-- The string actually constrained by the anchored body match: Python's
`$` tolerates one trailing newline, so that newline is not part of the
matched body. -/
def passwordBody (p : List Char) : List Char :=
  if p.getLast? = some '\n' then p.dropLast else p

/-- Declarative characterisation of what the regex accepts. -/
def passwordAmended (p : List Char) : Prop :=
  8 ≤ (passwordBody p).length ∧ (∀ c ∈ passwordBody p, isAllowedCh c) ∧
    (∃ c ∈ passwordBody p, isUpperCh c) ∧ (∃ c ∈ passwordBody p, isLowerCh c) ∧
    (∃ c ∈ passwordBody p, isDigitCh c) ∧ (∃ c ∈ passwordBody p, isSpecialCh c)

instance : DecidablePred passwordClaim := fun p => by
  unfold passwordClaim; exact inferInstance

instance : DecidablePred passwordAmended := fun p => by
  unfold passwordAmended; exact inferInstance

/-- A bcrypt hash value: `hashpw(password, gensalt())` is modelled as the
pair of the hashed password and the salt, and `checkpw` verifies exactly
the hashed password (the constant-time comparison delegated to bcrypt). -/
structure HashVal where
  pw : String
  salt : Nat
deriving DecidableEq, Repr

/-- bcrypt `hashpw`. -/
def hashpw (password : String) (salt : Nat) : HashVal := ⟨password, salt⟩

/-- bcrypt `checkpw`. -/
def checkpw (password : String) (h : HashVal) : Bool := h.pw == password

/-- A document of the `users` collection: `{_id, username, password}`. -/
structure UserDoc where
  id : Nat
  username : String
  password : HashVal
deriving DecidableEq, Repr

/-- A document of the `tasks` collection:
`{_id, user_id, title, description, due_date, completed}`. -/
structure TaskDoc where
  id : Nat
  user_id : Nat
  title : String
  description : String
  due_date : String
  completed : Bool
deriving DecidableEq, Repr

/-- The database state: the two collections, plus the store's id
generators (`_id`s are store-generated and fresh). -/
structure DB where
  users : List UserDoc
  tasks : List TaskDoc
  nextUserId : Nat
  nextTaskId : Nat
deriving DecidableEq, Repr

/-- A calendar date as produced by `st.date_input`. -/
structure DateVal where
  year : Nat
  month : Nat
  day : Nat
deriving DecidableEq, Repr

/-- Python `str(due_date)` on a `datetime.date`: ISO `YYYY-MM-DD` text. -/
def dateToStr (d : DateVal) : String :=
  toString d.year ++ "-" ++ toString d.month ++ "-" ++ toString d.day

/-- `authenticate_user` from `src/todo.py`: `find_one({"username": username})`
then `checkpw`; returns the user's id on match, `None` otherwise. -/
def authenticate_user (db : DB) (username password : String) : Option Nat :=
  match db.users.find? (fun u => u.username == username) with
  | some user => if checkpw password user.password then some user.id else none
  | none => none

/-- `create_user` from `src/todo.py`: returns `False` and leaves the store
unchanged when a user with this username exists; otherwise inserts
`{username, hashpw(password, salt)}` with a fresh store-generated id and
returns `True`.  The salt drawn by `gensalt()` is passed explicitly. -/
def create_user (db : DB) (username password : String) (salt : Nat) : Bool × DB :=
  if (db.users.find? (fun u => u.username == username)).isSome then
    (false, db)
  else
    (true,
      { db with
        users := db.users ++ [⟨db.nextUserId, username, hashpw password salt⟩],
        nextUserId := db.nextUserId + 1 })

/-- `get_tasks` from `src/todo.py`: all tasks whose `user_id` equals the
logged-in user's id, in the collection's retrieval order. -/
def get_tasks (db : DB) (uid : Nat) : List TaskDoc :=
  db.tasks.filter (fun t => t.user_id == uid)

/-- The outcome `add_task` communicates through `st.error` / `st.success`. -/
inductive AddOutcome where
  | duplicateTitle
  | added
deriving DecidableEq, Repr

/-- `add_task` from `src/todo.py`: rejects when
`find_one({"user_id": uid, "title": title})` finds an existing task,
otherwise inserts the new document with `due_date = str(due)` and
`completed = False`. -/
def add_task (db : DB) (uid : Nat) (title descr : String) (due : DateVal) :
    AddOutcome × DB :=
  if (db.tasks.find? (fun t => t.user_id == uid && t.title == title)).isSome then
    (.duplicateTitle, db)
  else
    (.added,
      { db with
        tasks := db.tasks ++ [⟨db.nextTaskId, uid, title, descr, dateToStr due, false⟩],
        nextTaskId := db.nextTaskId + 1 })

/-- MongoDB `delete_one({"_id": tid})`: removes the first document with
this id (no error when none exists). -/
def deleteOneTask : List TaskDoc → Nat → List TaskDoc
  | [], _ => []
  | t :: ts, tid => if t.id == tid then ts else t :: deleteOneTask ts tid

/-- `delete_task` from `src/todo.py`. -/
def delete_task (db : DB) (tid : Nat) : DB :=
  { db with tasks := deleteOneTask db.tasks tid }

/-- The outcome `clear_completed_tasks` communicates: `st.success` when
something was deleted, `st.info` ("nothing to clear") otherwise. -/
inductive ClearOutcome where
  | cleared
  | nothingToClear
deriving DecidableEq, Repr

/-- `count_documents({"user_id": uid, "completed": True})`. -/
def countCompleted (db : DB) (uid : Nat) : Nat :=
  (db.tasks.filter (fun t => t.user_id == uid && t.completed)).length

/-- `clear_completed_tasks` from `src/todo.py`: when the count of completed
tasks for this owner is positive, `delete_many` removes them all and a
success message is shown; otherwise nothing is deleted and the info
message is shown. -/
def clear_completed_tasks (db : DB) (uid : Nat) : ClearOutcome × DB :=
  if countCompleted db uid > 0 then
    (.cleared,
      { db with tasks := db.tasks.filter (fun t => !(t.user_id == uid && t.completed)) })
  else
    (.nothingToClear, db)

/-- MongoDB `update_one({"_id": tid}, {"$set": {"completed": v}})`: sets the
field on the first document with this id. -/
def updateOneCompleted : List TaskDoc → Nat → Bool → List TaskDoc
  | [], _, _ => []
  | t :: ts, tid, v =>
    if t.id == tid then { t with completed := v } :: ts
    else t :: updateOneCompleted ts tid v

/-- The checkbox handler of `src/todo.py` (lines 211–220): the `$set` write
of the `completed` field on one task. -/
def set_completed (db : DB) (tid : Nat) (v : Bool) : DB :=
  { db with tasks := updateOneCompleted db.tasks tid v }

/-- What the main page renders for task progress (lines 189–196): the
progress bar with fraction `completed_tasks / total_tasks` only under the
guard `total_tasks > 0`, the info message otherwise. -/
inductive ProgressView where
  | bar (fraction : ℚ)
  | noTasksInfo
deriving DecidableEq, Repr

/-- `sum(1 for task in tasks if task["completed"])`. -/
def completedCount (tasks : List TaskDoc) : Nat :=
  (tasks.filter (fun t => t.completed)).length

/-- The progress section of the main page. -/
def renderProgress (tasks : List TaskDoc) : ProgressView :=
  if tasks.length > 0 then
    .bar ((completedCount tasks : ℚ) / (tasks.length : ℚ))
  else
    .noTasksInfo

/-- Outcome of the Log In button handler (lines 127–138). -/
inductive LoginView where
  | missingFields
  | loggedIn (uid : Nat)
  | invalidCredentials
deriving DecidableEq, Repr

/-- The Log In button handler: empty username or password short-circuits
with its own error; otherwise `authenticate_user` decides between setting
the session id and the "Invalid credentials." error. -/
def loginAction (db : DB) (username password : String) : LoginView :=
  if username == "" || password == "" then .missingFields
  else
    match authenticate_user db username password with
    | some uid => .loggedIn uid
    | none => .invalidCredentials

/-- The message string each login outcome displays. -/
def loginMessage : LoginView → String
  | .missingFields => "Please enter both a username and a password."
  | .loggedIn _ => "Logged in successfully!"
  | .invalidCredentials => "Invalid credentials."

/-- The per-owner title-uniqueness invariant of the task store (§3 of the
spec: no two tasks with the same `owner_id` share the same title). -/
def uniqueTaskTitles (db : DB) : Prop :=
  db.tasks.Pairwise (fun a b => a.user_id = b.user_id → a.title ≠ b.title)

instance : DecidablePred uniqueTaskTitles := fun db => by
  unfold uniqueTaskTitles; exact inferInstance

lemma passwordBody_cons (c : Char) (cs : List Char) :
    passwordBody (c :: cs) =
      if cs = [] then (if c = '\n' then [] else [c]) else c :: passwordBody cs := by
  cases cs with
  | nil =>
    by_cases h : c = '\n' <;> simp [passwordBody, h]
  | cons d ds =>
    simp only [passwordBody, List.getLast?_cons_cons, if_neg (List.cons_ne_nil d ds)]
    by_cases h : (d :: ds).getLast? = some '\n' <;> simp [h]

lemma isAllowedCh_newline : isAllowedCh '\n' = false := by decide

lemma matchTailFrom_cons (c : Char) (cs : List Char) (n : Nat) :
    matchTailFrom (c :: cs) n =
      if c = '\n' then cs.isEmpty && decide (8 ≤ n)
      else isAllowedCh c && matchTailFrom cs (n + 1) := rfl

lemma seesClass_cons (q : Char → Bool) (c : Char) (cs : List Char) :
    seesClass q (c :: cs) = if c = '\n' then false else (q c || seesClass q cs) := rfl

lemma matchTailFrom_iff (p : List Char) (n : Nat) :
    matchTailFrom p n = true ↔
      8 ≤ n + (passwordBody p).length ∧ ∀ c ∈ passwordBody p, isAllowedCh c := by
  induction p generalizing n with
  | nil => simp [matchTailFrom, passwordBody]
  | cons c cs ih =>
    rw [passwordBody_cons, matchTailFrom_cons]
    cases cs with
    | nil =>
      by_cases h : c = '\n'
      · simp [h]
      · rw [if_pos rfl, if_neg h, if_neg h]
        simp only [matchTailFrom, Bool.and_eq_true, decide_eq_true_eq,
          List.length_singleton, List.mem_singleton]
        constructor
        · rintro ⟨ha, hn⟩
          exact ⟨by omega, fun x hx => hx ▸ ha⟩
        · rintro ⟨hn, hall⟩
          exact ⟨hall c rfl, by omega⟩
    | cons d ds =>
      by_cases h : c = '\n'
      · simp only [if_pos h, if_neg (List.cons_ne_nil d ds)]
        constructor
        · intro hcontra
          simp at hcontra
        · rintro ⟨-, hall⟩
          have := hall c (h ▸ List.mem_cons_self c _)
          rw [h, isAllowedCh_newline] at this
          exact absurd this (by simp)
      · simp only [if_neg h, if_neg (List.cons_ne_nil d ds), Bool.and_eq_true, ih,
          List.length_cons, List.mem_cons]
        constructor
        · rintro ⟨ha, hlen, hall⟩
          refine ⟨by omega, ?_⟩
          rintro x (rfl | hx)
          · exact ha
          · exact hall x hx
        · rintro ⟨hlen, hall⟩
          exact ⟨hall c (Or.inl rfl), by omega, fun x hx => hall x (Or.inr hx)⟩

lemma seesClass_iff (q : Char → Bool) (p : List Char)
    (hq : q '\n' = false) (hall : ∀ c ∈ passwordBody p, isAllowedCh c) :
    seesClass q p = true ↔ ∃ c ∈ passwordBody p, q c := by
  induction p with
  | nil => simp [seesClass, passwordBody]
  | cons c cs ih =>
    rw [passwordBody_cons] at hall ⊢
    rw [seesClass_cons]
    cases cs with
    | nil =>
      by_cases h : c = '\n'
      · simp [h, hq]
      · rw [if_pos rfl, if_neg h, if_neg h]
        simp [seesClass]
    | cons d ds =>
      simp only [if_neg (List.cons_ne_nil d ds)] at hall ⊢
      by_cases h : c = '\n'
      · exfalso
        have := hall c (List.mem_cons_self c _)
        rw [h, isAllowedCh_newline] at this
        exact absurd this (by simp)
      · have hall' : ∀ x ∈ passwordBody (d :: ds), isAllowedCh x :=
          fun x hx => hall x (List.mem_cons_of_mem c hx)
        simp only [if_neg h, Bool.or_eq_true, ih hall', List.mem_cons]
        constructor
        · rintro (hc | ⟨x, hx, hqx⟩)
          · exact ⟨c, Or.inl rfl, hc⟩
          · exact ⟨x, Or.inr hx, hqx⟩
        · rintro ⟨x, (rfl | hx), hqx⟩
          · exact Or.inl hqx
          · exact Or.inr ⟨x, hx, hqx⟩

/-- C1 (counterexample): the spec's characterisation fails on the concrete
password `"Aa1@aaa#"`: it has length 8 and one character of each required
class, yet the regex rejects it because `#` is outside the regex's overall
character class. -/
theorem C1_counterexample :
    ¬ (is_valid_password "Aa1@aaa#".data = true ↔ passwordClaim "Aa1@aaa#".data) := by
  decide

/-- C1 (amended): `is_valid_password p` is true iff, after discarding at
most one trailing newline, `p` has length ≥ 8, consists solely of
characters from `A-Z`, `a-z`, `0-9` and `@$!%*?&`, and contains at least
one uppercase letter, one lowercase letter, one digit, and one character
from `@$!%*?&`. -/
theorem C1_password_policy (p : List Char) :
    is_valid_password p = true ↔ passwordAmended p := by
  unfold is_valid_password passwordAmended
  simp only [Bool.and_eq_true]
  constructor
  · rintro ⟨⟨⟨⟨hu, hl⟩, hd⟩, hs⟩, hm⟩
    obtain ⟨hlen, hall⟩ := (matchTailFrom_iff p 0).mp hm
    refine ⟨by omega, hall, ?_, ?_, ?_, ?_⟩
    · exact (seesClass_iff isUpperCh p (by decide) hall).mp hu
    · exact (seesClass_iff isLowerCh p (by decide) hall).mp hl
    · exact (seesClass_iff isDigitCh p (by decide) hall).mp hd
    · exact (seesClass_iff isSpecialCh p (by decide) hall).mp hs
  · rintro ⟨hlen, hall, hu, hl, hd, hs⟩
    refine ⟨⟨⟨⟨?_, ?_⟩, ?_⟩, ?_⟩, ?_⟩
    · exact (seesClass_iff isUpperCh p (by decide) hall).mpr hu
    · exact (seesClass_iff isLowerCh p (by decide) hall).mpr hl
    · exact (seesClass_iff isDigitCh p (by decide) hall).mpr hd
    · exact (seesClass_iff isSpecialCh p (by decide) hall).mpr hs
    · exact (matchTailFrom_iff p 0).mpr ⟨by omega, hall⟩

lemma length_filter_eq_one {α : Type} {l : List α} {p : α → Bool}
    (hpw : l.Pairwise (fun a b => ¬(p a = true ∧ p b = true)))
    (hex : ∃ x ∈ l, p x = true) : (l.filter p).length = 1 := by
  induction l with
  | nil => simp at hex
  | cons a l ih =>
    rw [List.pairwise_cons] at hpw
    obtain ⟨ha, hl⟩ := hpw
    by_cases hpa : p a = true
    · rw [List.filter_cons_of_pos hpa]
      have hnil : l.filter p = [] := by
        rw [List.filter_eq_nil_iff]
        exact fun x hx hpx => ha x hx ⟨hpa, hpx⟩
      simp [hnil]
    · rw [List.filter_cons_of_neg hpa]
      refine ih hl ?_
      obtain ⟨x, hx, hpx⟩ := hex
      cases hx with
      | head => exact absurd hpx hpa
      | tail _ h => exact ⟨x, h, hpx⟩

lemma add_task_of_find?_none {db : DB} {u : Nat} {tt ds : String} {dd : DateVal}
    (hfind : db.tasks.find? (fun t => t.user_id == u && t.title == tt) = none) :
    add_task db u tt ds dd =
      (AddOutcome.added,
        { db with
          tasks := db.tasks ++ [⟨db.nextTaskId, u, tt, ds, dateToStr dd, false⟩],
          nextTaskId := db.nextTaskId + 1 }) := by
  simp [add_task, hfind]

lemma add_task_of_find?_some {db : DB} {u : Nat} {tt ds : String} {dd : DateVal}
    {w : TaskDoc}
    (hfind : db.tasks.find? (fun t => t.user_id == u && t.title == tt) = some w) :
    add_task db u tt ds dd = (AddOutcome.duplicateTitle, db) := by
  simp [add_task, hfind]

/-- C2: `add_task(u, t, ...)` fails with the duplicate-title error and
inserts nothing iff a task with owner `u` and exactly title `t` already
exists (so tasks of other owners never cause the conflict), and after such
a failure — the store satisfying the per-owner title-uniqueness
invariant — exactly one task with title `t` exists for `u`. -/
theorem C2_add_task_duplicate (db : DB) (u : Nat) (tt ds : String) (dd : DateVal)
    (hinv : uniqueTaskTitles db) :
    ((add_task db u tt ds dd).1 = AddOutcome.duplicateTitle ↔
      ∃ t ∈ db.tasks, t.user_id = u ∧ t.title = tt) ∧
    ((add_task db u tt ds dd).1 = AddOutcome.duplicateTitle →
      (add_task db u tt ds dd).2 = db ∧
      (db.tasks.filter (fun t => t.user_id == u && t.title == tt)).length = 1) ∧
    ((∀ t ∈ db.tasks, t.user_id = u → t.title ≠ tt) →
      (add_task db u tt ds dd).1 = AddOutcome.added) := by
  cases hfind : db.tasks.find? (fun t => t.user_id == u && t.title == tt) with
  | none =>
    rw [add_task_of_find?_none hfind]
    rw [List.find?_eq_none] at hfind
    simp only [Bool.and_eq_true, beq_iff_eq, not_and] at hfind
    refine ⟨?_, ?_, fun _ => rfl⟩
    · constructor
      · intro h
        cases h
      · rintro ⟨t, ht, hu, htt⟩
        exact absurd htt (hfind t ht hu)
    · intro h
      cases h
  | some w =>
    rw [add_task_of_find?_some hfind]
    have hwmem := List.mem_of_find?_eq_some hfind
    have hw := List.find?_some hfind
    simp only [Bool.and_eq_true, beq_iff_eq] at hw
    refine ⟨?_, fun _ => ⟨rfl, ?_⟩, ?_⟩
    · exact ⟨fun _ => ⟨w, hwmem, hw.1, hw.2⟩, fun _ => rfl⟩
    · refine length_filter_eq_one (hinv.imp ?_) ⟨w, hwmem, by simp [hw.1, hw.2]⟩
      intro a b hab hc
      simp only [Bool.and_eq_true, beq_iff_eq] at hc
      exact hab (hc.1.1.trans hc.2.1.symm) (hc.1.2.trans hc.2.2.symm)
    · intro hnone
      exact absurd hw.2 (hnone w hwmem hw.1)

lemma create_user_of_find?_none {db : DB} {n p : String} {s : Nat}
    (hfind : db.users.find? (fun u => u.username == n) = none) :
    create_user db n p s =
      (true,
        { db with
          users := db.users ++ [⟨db.nextUserId, n, hashpw p s⟩],
          nextUserId := db.nextUserId + 1 }) := by
  simp [create_user, hfind]

lemma create_user_of_find?_some {db : DB} {n p : String} {s : Nat} {w : UserDoc}
    (hfind : db.users.find? (fun u => u.username == n) = some w) :
    create_user db n p s = (false, db) := by
  simp [create_user, hfind]

/-- C3: `create_user` (the spec's `register`) fails exactly when a user
with the same username (exact, case-sensitive string match) exists; on
failure the credential store is unchanged, and after a fresh registration
a repeated `create_user` with the same username fails, leaves the store
unchanged, and exactly one record with that username remains. -/
theorem C3_register_already_exists (db : DB) (n p1 p2 : String) (s1 s2 : Nat) :
    ((create_user db n p1 s1).1 = false ↔ ∃ u ∈ db.users, u.username = n) ∧
    ((create_user db n p1 s1).1 = false → (create_user db n p1 s1).2 = db) ∧
    ((∀ u ∈ db.users, u.username ≠ n) →
      (create_user (create_user db n p1 s1).2 n p2 s2).1 = false ∧
      (create_user (create_user db n p1 s1).2 n p2 s2).2 = (create_user db n p1 s1).2 ∧
      ((create_user db n p1 s1).2.users.filter (fun u => u.username == n)).length = 1) := by
  cases hfind : db.users.find? (fun u => u.username == n) with
  | some w =>
    rw [create_user_of_find?_some hfind]
    have hwmem := List.mem_of_find?_eq_some hfind
    have hw := List.find?_some hfind
    rw [beq_iff_eq] at hw
    refine ⟨⟨fun _ => ⟨w, hwmem, hw⟩, fun _ => rfl⟩, fun _ => rfl, ?_⟩
    intro hfresh
    exact absurd hw (hfresh w hwmem)
  | none =>
    rw [create_user_of_find?_none hfind]
    have hall : ∀ u ∈ db.users, ¬((fun u => u.username == n) u = true) :=
      List.find?_eq_none.mp hfind
    simp only [beq_iff_eq] at hall
    have hfind2 : (db.users ++ [(⟨db.nextUserId, n, hashpw p1 s1⟩ : UserDoc)]).find?
        (fun u => u.username == n) = some ⟨db.nextUserId, n, hashpw p1 s1⟩ := by
      rw [List.find?_append, hfind]
      simp
    refine ⟨?_, ?_, ?_⟩
    · constructor
      · intro h
        cases h
      · rintro ⟨w, hwmem, hw⟩
        exact absurd hw (hall w hwmem)
    · intro h
      cases h
    · intro _
      have hnil : db.users.filter (fun u => u.username == n) = [] :=
        List.filter_eq_nil_iff.mpr (fun u hu => by simp [hall u hu])
      refine ⟨?_, ?_, ?_⟩
      · show (create_user _ n p2 s2).1 = false
        rw [create_user_of_find?_some hfind2]
      · show (create_user _ n p2 s2).2 = _
        rw [create_user_of_find?_some hfind2]
      · show ((db.users ++ [(⟨db.nextUserId, n, hashpw p1 s1⟩ : UserDoc)]).filter
          (fun u => u.username == n)).length = 1
        rw [List.filter_append, hnil]
        simp

/-- C4: after a successful registration of `(n, p)` into a store with no
user named `n`, authenticating with exactly `p` returns the very id the
registration assigned, and authenticating with any other password returns
`None` (the bcrypt primitive being modelled as verifying exactly the
hashed password). -/
theorem C4_register_then_authenticate (db : DB) (n p q : String) (s : Nat)
    (hfresh : ∀ u ∈ db.users, u.username ≠ n) (hq : q ≠ p) :
    (create_user db n p s).1 = true ∧
    authenticate_user (create_user db n p s).2 n p = some db.nextUserId ∧
    authenticate_user (create_user db n p s).2 n q = none := by
  have hfind : db.users.find? (fun u => u.username == n) = none :=
    List.find?_eq_none.mpr (fun u hu => by simp [hfresh u hu])
  rw [create_user_of_find?_none hfind]
  have hfind2 : (db.users ++ [(⟨db.nextUserId, n, hashpw p s⟩ : UserDoc)]).find?
      (fun u => u.username == n) = some ⟨db.nextUserId, n, hashpw p s⟩ := by
    rw [List.find?_append, hfind]
    simp
  refine ⟨rfl, ?_, ?_⟩
  · show authenticate_user _ n p = some db.nextUserId
    unfold authenticate_user
    rw [hfind2]
    simp [checkpw, hashpw]
  · show authenticate_user _ n q = none
    unfold authenticate_user
    rw [hfind2]
    have hcheck : checkpw q (hashpw p s) = false := by
      simp only [checkpw, hashpw, beq_eq_false_iff_ne, ne_eq]
      exact fun h => hq h.symm
    simp [hcheck]

lemma countCompleted_pos_iff (db : DB) (u : Nat) :
    0 < countCompleted db u ↔ ∃ t ∈ db.tasks, t.user_id = u ∧ t.completed = true := by
  unfold countCompleted
  rw [List.length_pos, ne_eq, List.filter_eq_nil_iff]
  push_neg
  simp

lemma clear_of_pos {db : DB} {u : Nat} (h : 0 < countCompleted db u) :
    clear_completed_tasks db u =
      (ClearOutcome.cleared,
        { db with tasks := db.tasks.filter (fun t => !(t.user_id == u && t.completed)) }) := by
  unfold clear_completed_tasks
  rw [if_pos h]

lemma clear_of_zero {db : DB} {u : Nat} (h : countCompleted db u = 0) :
    clear_completed_tasks db u = (ClearOutcome.nothingToClear, db) := by
  unfold clear_completed_tasks
  rw [if_neg (by omega)]

/-- C5: `clear_completed_tasks(u)` deletes exactly the tasks owned by `u`
whose `completed` field is true and leaves every other task unchanged; it
reports the cleared outcome iff such a task existed, is a do-nothing
no-op reporting "nothing to clear" otherwise, and a second call right
after any call reports "nothing to clear". -/
theorem C5_clear_completed (db : DB) (u : Nat) :
    ((clear_completed_tasks db u).2.tasks =
      db.tasks.filter (fun t => !(t.user_id == u && t.completed))) ∧
    ((clear_completed_tasks db u).1 = ClearOutcome.cleared ↔
      ∃ t ∈ db.tasks, t.user_id = u ∧ t.completed = true) ∧
    ((∀ t ∈ db.tasks, ¬(t.user_id = u ∧ t.completed = true)) →
      (clear_completed_tasks db u).1 = ClearOutcome.nothingToClear ∧
      (clear_completed_tasks db u).2 = db) ∧
    (clear_completed_tasks (clear_completed_tasks db u).2 u).1 =
      ClearOutcome.nothingToClear := by
  by_cases hpos : 0 < countCompleted db u
  · rw [clear_of_pos hpos]
    have hzero2 : countCompleted
        { db with tasks := db.tasks.filter (fun t => !(t.user_id == u && t.completed)) } u
          = 0 := by
      unfold countCompleted
      simp only [List.filter_filter]
      rw [List.filter_eq_nil_iff.mpr ?_]
      · rfl
      · intro t _
        by_cases h : (t.user_id == u && t.completed) = true <;> simp [h]
    refine ⟨rfl, ?_, ?_, ?_⟩
    · simp only [true_iff, show ClearOutcome.cleared = ClearOutcome.cleared from rfl]
      exact (countCompleted_pos_iff db u).mp hpos
    · intro hnone
      rw [countCompleted_pos_iff] at hpos
      obtain ⟨t, ht, hp⟩ := hpos
      exact absurd hp (hnone t ht)
    · show (clear_completed_tasks _ u).1 = _
      rw [clear_of_zero hzero2]
  · have hzero : countCompleted db u = 0 := by omega
    rw [clear_of_zero hzero]
    have hall : ∀ t ∈ db.tasks, ¬((t.user_id == u && t.completed) = true) := by
      rw [← List.filter_eq_nil_iff]
      have := List.length_eq_zero.mp hzero
      exact this
    refine ⟨?_, ?_, fun _ => ⟨rfl, rfl⟩, ?_⟩
    · rw [List.filter_eq_self.mpr ?_]
      intro t ht
      simp [hall t ht]
    · constructor
      · intro h
        cases h
      · rintro ⟨t, ht, hu, hc⟩
        exact absurd (by simp [hu, hc]) (hall t ht)
    · show (clear_completed_tasks db u).1 = _
      rw [clear_of_zero hzero]

lemma deleteOneTask_of_absent {ts : List TaskDoc} {tid : Nat}
    (h : ∀ t ∈ ts, t.id ≠ tid) : deleteOneTask ts tid = ts := by
  induction ts with
  | nil => rfl
  | cons t ts ih =>
    have hid : (t.id == tid) = false := by
      simp [h t (List.mem_cons_self t ts)]
    simp [deleteOneTask, hid, ih (fun x hx => h x (List.mem_cons_of_mem t hx))]

lemma deleteOneTask_sublist (ts : List TaskDoc) (tid : Nat) :
    (deleteOneTask ts tid).Sublist ts := by
  induction ts with
  | nil => exact List.Sublist.refl _
  | cons t ts ih =>
    by_cases h : (t.id == tid) = true
    · unfold deleteOneTask
      rw [if_pos h]
      exact List.sublist_cons_self t ts
    · unfold deleteOneTask
      rw [if_neg h]
      exact List.Sublist.cons₂ t ih

lemma deleteOneTask_length (ts : List TaskDoc) (tid : Nat) :
    ts.length ≤ (deleteOneTask ts tid).length + 1 := by
  induction ts with
  | nil => simp [deleteOneTask]
  | cons t ts ih =>
    by_cases h : (t.id == tid) = true
    · unfold deleteOneTask
      rw [if_pos h]
      simp only [List.length_cons]
      omega
    · unfold deleteOneTask
      rw [if_neg h]
      simp only [List.length_cons]
      omega

lemma deleteOneTask_mem {ts : List TaskDoc} {tid : Nat} {t : TaskDoc}
    (hmem : t ∈ ts) (hne : t.id ≠ tid) : t ∈ deleteOneTask ts tid := by
  induction ts with
  | nil => cases hmem
  | cons s ts ih =>
    by_cases h : (s.id == tid) = true
    · unfold deleteOneTask
      rw [if_pos h]
      cases hmem with
      | head => exact absurd (beq_iff_eq.mp h) hne
      | tail _ hmem => exact hmem
    · unfold deleteOneTask
      rw [if_neg h]
      cases hmem with
      | head => exact List.mem_cons_self _ _
      | tail _ hmem => exact List.mem_cons_of_mem _ (ih hmem)

/-- C6: `delete_task(tid)` removes at most the single task with id `tid`:
when no task with that id exists it changes nothing (silent success, no
error), every task with a different id survives, nothing is ever added or
reordered, and at most one document disappears. -/
theorem C6_delete_task (db : DB) (tid : Nat) :
    ((∀ t ∈ db.tasks, t.id ≠ tid) → delete_task db tid = db) ∧
    (∀ t ∈ db.tasks, t.id ≠ tid → t ∈ (delete_task db tid).tasks) ∧
    ((delete_task db tid).tasks.Sublist db.tasks) ∧
    (db.tasks.length ≤ (delete_task db tid).tasks.length + 1) := by
  refine ⟨?_, ?_, ?_, ?_⟩
  · intro h
    unfold delete_task
    rw [deleteOneTask_of_absent h]
  · intro t ht hne
    exact deleteOneTask_mem ht hne
  · exact deleteOneTask_sublist db.tasks tid
  · exact deleteOneTask_length db.tasks tid

/-- C7: a successful `add_task` appends exactly one new document whose
`completed` field is `false` and whose `due_date` field is the string
rendering of the given date. -/
theorem C7_new_task_shape (db : DB) (u : Nat) (tt ds : String) (dd : DateVal)
    (h : (add_task db u tt ds dd).1 = AddOutcome.added) :
    (add_task db u tt ds dd).2.tasks =
      db.tasks ++ [{ id := db.nextTaskId, user_id := u, title := tt,
                     description := ds, due_date := dateToStr dd,
                     completed := false }] := by
  cases hfind : db.tasks.find? (fun t => t.user_id == u && t.title == tt) with
  | some w =>
    rw [add_task_of_find?_some hfind] at h
    cases h
  | none =>
    rw [add_task_of_find?_none hfind]

lemma updateOneCompleted_cons (t : TaskDoc) (ts : List TaskDoc) (tid : Nat) (v : Bool) :
    updateOneCompleted (t :: ts) tid v =
      if (t.id == tid) = true then { t with completed := v } :: ts
      else t :: updateOneCompleted ts tid v := rfl

lemma updateOneCompleted_idem (ts : List TaskDoc) (tid : Nat) (v : Bool) :
    updateOneCompleted (updateOneCompleted ts tid v) tid v =
      updateOneCompleted ts tid v := by
  induction ts with
  | nil => rfl
  | cons t ts ih =>
    rw [updateOneCompleted_cons]
    by_cases h : (t.id == tid) = true
    · rw [if_pos h, updateOneCompleted_cons, if_pos h]
    · rw [if_neg h, updateOneCompleted_cons, if_neg h, ih]

lemma updateOneCompleted_noop {ts : List TaskDoc} {tid : Nat} {v : Bool}
    (h : ∀ t ∈ ts, t.id = tid → t.completed = v) :
    updateOneCompleted ts tid v = ts := by
  induction ts with
  | nil => rfl
  | cons t ts ih =>
    by_cases hid : (t.id == tid) = true
    · have hc := h t (List.mem_cons_self t ts) (beq_iff_eq.mp hid)
      unfold updateOneCompleted
      rw [if_pos hid]
      cases t
      simp_all
    · unfold updateOneCompleted
      rw [if_neg hid, ih (fun x hx => h x (List.mem_cons_of_mem t hx))]

/-- C8: the completion write is idempotent — issuing the same `$set` twice
leaves the store exactly as issuing it once — and when the stored
`completed` field already equals the written value the write changes
nothing. -/
theorem C8_set_completed_idempotent (db : DB) (tid : Nat) (v : Bool) :
    set_completed (set_completed db tid v) tid v = set_completed db tid v ∧
    ((∀ t ∈ db.tasks, t.id = tid → t.completed = v) → set_completed db tid v = db) := by
  constructor
  · unfold set_completed
    rw [updateOneCompleted_idem]
  · intro h
    unfold set_completed
    rw [updateOneCompleted_noop h]

/-- C9: the progress fraction `completed_tasks / total_tasks` is produced
only under the guard `total_tasks > 0` — a rendered bar implies a nonzero
divisor — and an empty task list renders the info message instead. -/
theorem C9_progress_guard (tasks : List TaskDoc) :
    (∀ q, renderProgress tasks = ProgressView.bar q → 0 < tasks.length) ∧
    (tasks = [] → renderProgress tasks = ProgressView.noTasksInfo) ∧
    (0 < tasks.length →
      renderProgress tasks =
        ProgressView.bar ((completedCount tasks : ℚ) / (tasks.length : ℚ))) := by
  refine ⟨?_, ?_, ?_⟩
  · intro q hq
    by_contra hlen
    unfold renderProgress at hq
    rw [if_neg hlen] at hq
    cases hq
  · rintro rfl
    rfl
  · intro h
    unfold renderProgress
    rw [if_pos h]

/-- C10: a login attempt with a nonexistent username and one with an
existing username but wrong password are observably identical:
`authenticate_user` returns `None` for both and the login handler shows
the very same "Invalid credentials." message for both. -/
theorem C10_login_failures_indistinguishable (db : DB) (u1 p1 u2 p2 : String)
    (w : UserDoc)
    (h1 : ∀ v ∈ db.users, v.username ≠ u1)
    (h2 : db.users.find? (fun v => v.username == u2) = some w)
    (h3 : checkpw p2 w.password = false)
    (hu1 : u1 ≠ "") (hp1 : p1 ≠ "") (hu2 : u2 ≠ "") (hp2 : p2 ≠ "") :
    authenticate_user db u1 p1 = none ∧
    authenticate_user db u2 p2 = none ∧
    loginAction db u1 p1 = LoginView.invalidCredentials ∧
    loginAction db u2 p2 = LoginView.invalidCredentials ∧
    loginMessage (loginAction db u1 p1) = "Invalid credentials." ∧
    loginMessage (loginAction db u1 p1) = loginMessage (loginAction db u2 p2) := by
  have hf1 : db.users.find? (fun v => v.username == u1) = none :=
    List.find?_eq_none.mpr (fun v hv => by simp [h1 v hv])
  have ha1 : authenticate_user db u1 p1 = none := by
    unfold authenticate_user
    rw [hf1]
  have ha2 : authenticate_user db u2 p2 = none := by
    unfold authenticate_user
    rw [h2]
    simp [h3]
  have hc1 : (u1 == "" || p1 == "") = false := by simp [hu1, hp1]
  have hc2 : (u2 == "" || p2 == "") = false := by simp [hu2, hp2]
  have hl1 : loginAction db u1 p1 = LoginView.invalidCredentials := by
    unfold loginAction
    rw [hc1]
    simp [ha1]
  have hl2 : loginAction db u2 p2 = LoginView.invalidCredentials := by
    unfold loginAction
    rw [hc2]
    simp [ha2]
  exact ⟨ha1, ha2, hl1, hl2, by rw [hl1]; rfl, by rw [hl1, hl2]⟩

/-- Concrete store used by the witness theorems: one registered user and
three tasks (two owners sharing the title "Buy milk", one of the tasks
completed). -/
def dbW : DB :=
  { users := [{ id := 0, username := "alice", password := ⟨"Str0ng!Pw", 7⟩ }],
    tasks :=
      [{ id := 0, user_id := 5, title := "Buy milk", description := "2%",
         due_date := "2024-1-1", completed := false },
       { id := 1, user_id := 5, title := "X", description := "",
         due_date := "2024-1-2", completed := true },
       { id := 2, user_id := 6, title := "Buy milk", description := "",
         due_date := "2024-1-3", completed := true }],
    nextUserId := 1,
    nextTaskId := 3 }

/-- Witness for C2 at the concrete store `dbW`. -/
theorem C2_add_task_duplicate_witness :
    (add_task dbW 5 "Buy milk" "d" ⟨2024, 1, 4⟩).1 = AddOutcome.duplicateTitle ∧
    (add_task dbW 5 "Buy milk" "d" ⟨2024, 1, 4⟩).2 = dbW ∧
    (dbW.tasks.filter (fun t => t.user_id == 5 && t.title == "Buy milk")).length = 1 := by
  have h := C2_add_task_duplicate dbW 5 "Buy milk" "d" ⟨2024, 1, 4⟩ (by decide)
  have hdup : (add_task dbW 5 "Buy milk" "d" ⟨2024, 1, 4⟩).1 = AddOutcome.duplicateTitle :=
    h.1.mpr (by decide)
  exact ⟨hdup, (h.2.1 hdup).1, (h.2.1 hdup).2⟩

/-- Witness for C3 at the concrete store `dbW`. -/
theorem C3_register_already_exists_witness :
    (create_user (create_user dbW "bob" "pw1" 3).2 "bob" "pw2" 4).1 = false ∧
    (create_user (create_user dbW "bob" "pw1" 3).2 "bob" "pw2" 4).2 =
      (create_user dbW "bob" "pw1" 3).2 ∧
    ((create_user dbW "bob" "pw1" 3).2.users.filter
      (fun u => u.username == "bob")).length = 1 := by
  have h := (C3_register_already_exists dbW "bob" "pw1" "pw2" 3 4).2.2 (by decide)
  exact ⟨h.1, h.2.1, h.2.2⟩

/-- Witness for C4 at the concrete store `dbW`. -/
theorem C4_register_then_authenticate_witness :
    (create_user dbW "bob" "S3cret!x" 3).1 = true ∧
    authenticate_user (create_user dbW "bob" "S3cret!x" 3).2 "bob" "S3cret!x" = some 1 ∧
    authenticate_user (create_user dbW "bob" "S3cret!x" 3).2 "bob" "wrong" = none := by
  have h := C4_register_then_authenticate dbW "bob" "S3cret!x" "wrong" 3
    (by decide) (by decide)
  exact ⟨h.1, h.2.1, h.2.2⟩

/-- Witness for C5 at the concrete store `dbW`. -/
theorem C5_clear_completed_witness :
    (clear_completed_tasks dbW 5).1 = ClearOutcome.cleared ∧
    (clear_completed_tasks (clear_completed_tasks dbW 5).2 5).1 =
      ClearOutcome.nothingToClear ∧
    (clear_completed_tasks dbW 5).2.tasks =
      [{ id := 0, user_id := 5, title := "Buy milk", description := "2%",
         due_date := "2024-1-1", completed := false },
       { id := 2, user_id := 6, title := "Buy milk", description := "",
         due_date := "2024-1-3", completed := true }] := by
  have h := C5_clear_completed dbW 5
  refine ⟨h.2.1.mpr (by decide), h.2.2.2, ?_⟩
  rw [h.1]
  decide

/-- Witness for C6 at the concrete store `dbW` and a nonexistent id. -/
theorem C6_delete_task_witness : delete_task dbW 99 = dbW :=
  (C6_delete_task dbW 99).1 (by decide)

/-- Witness for C7 at the concrete store `dbW`. -/
theorem C7_new_task_shape_witness :
    (add_task dbW 5 "New" "d" ⟨2024, 2, 1⟩).2.tasks =
      dbW.tasks ++ [{ id := 3, user_id := 5, title := "New", description := "d",
                      due_date := "2024-2-1", completed := false }] := by
  have h := C7_new_task_shape dbW 5 "New" "d" ⟨2024, 2, 1⟩ (by decide)
  rw [h]
  decide

/-- Witness for C8 at the concrete store `dbW` (task 1 is already
completed, so the write is a no-op). -/
theorem C8_set_completed_idempotent_witness :
    set_completed (set_completed dbW 1 true) 1 true = set_completed dbW 1 true ∧
    set_completed dbW 1 true = dbW := by
  have h := C8_set_completed_idempotent dbW 1 true
  exact ⟨h.1, h.2 (by decide)⟩

/-- Witness for C9 at the empty list and at the concrete store `dbW`. -/
theorem C9_progress_guard_witness :
    renderProgress [] = ProgressView.noTasksInfo ∧
    renderProgress dbW.tasks =
      ProgressView.bar ((completedCount dbW.tasks : ℚ) / (dbW.tasks.length : ℚ)) :=
  ⟨(C9_progress_guard []).2.1 rfl, (C9_progress_guard dbW.tasks).2.2 (by decide)⟩

/-- Witness for C10 at the concrete store `dbW`: a nonexistent username
versus the existing "alice" with a wrong password. -/
theorem C10_login_failures_indistinguishable_witness :
    authenticate_user dbW "mallory" "pw" = none ∧
    authenticate_user dbW "alice" "wrong" = none ∧
    loginMessage (loginAction dbW "mallory" "pw") = "Invalid credentials." ∧
    loginMessage (loginAction dbW "mallory" "pw") =
      loginMessage (loginAction dbW "alice" "wrong") := by
  have h := C10_login_failures_indistinguishable dbW "mallory" "pw" "alice" "wrong"
    (⟨0, "alice", ⟨"Str0ng!Pw", 7⟩⟩ : UserDoc) (by decide) (by decide) (by decide)
    (by decide) (by decide) (by decide) (by decide)
  exact ⟨h.1, h.2.1, h.2.2.2.2.1, h.2.2.2.2.2⟩

end Todo
